import Mathlib

/-
Verification of the library-management core of the h5p server package:
the LibraryName identity class (parsing, rendering, validation), the
ValidatorBuilder rule pipeline, the dependency resolution of H5PEditor
(listAssets and resolveDependencies), getLibraryOverview, and the
install, update and rollback behaviour of LibraryManager (modelled from
the specification where the implementation is not part of the sources).

The JavaScript sources are embedded shallowly: strings are Lean strings,
JavaScript numbers appearing as versions are modelled as integers
(NaN is modelled as the none case of an Option), thrown errors are the
error case of Except, and the mutable state threaded through the
dependency walk and the repository operations is passed explicitly.
-/

namespace H5p

/-! Character classes of the regular expressions in LibraryName.js. -/

/-- Character class of the pattern [A-Za-z0-9_.]: the regular-expression
class w together with the dot, used for machine names. -/
def wordDot (c : Char) : Bool :=
  c.isAlphanum || c == '_' || c == '.'

/-- Model of the JavaScript regular-expression whitespace class (the
pattern s in the source): the common whitespace characters. -/
def jsWhitespace (c : Char) : Bool :=
  c == ' ' || c == '\t' || c == '\n' || c == '\r' ||
  c == '\u000B' || c == '\u000C' || c == '\u00A0' || c == '\uFEFF'

/-- Separator character class chosen by the ubername patterns: a hyphen
when useHyphen is set, a whitespace character when useWhitespace is set.
The three regular expressions of fromUberName differ exactly in this
class. -/
def sepClass (useHyphen useWhitespace : Bool) (c : Char) : Bool :=
  (useHyphen && c == '-') || (useWhitespace && jsWhitespace c)

/-- Splits a character list at the unique character satisfying p,
returning the part before, the separator character, and the part after;
none when the list contains no such character or more than one.  An
anchored regular expression of the form A+ sep B with sep excluded from
the classes A and B matches exactly in this way, so this function is the
matching engine for the ubername patterns. -/
def splitUnique (p : Char → Bool) : List Char → Option (List Char × Char × List Char)
  | [] => none
  | c :: cs =>
    if p c then
      if cs.any p then none else some ([], c, cs)
    else
      match splitUnique p cs with
      | some (a, s, b) => some (c :: a, s, b)
      | none => none

theorem splitUnique_sound {p : Char → Bool} :
    ∀ {l : List Char} {a : List Char} {s : Char} {b : List Char},
      splitUnique p l = some (a, s, b) →
      l = a ++ s :: b ∧ p s = true ∧ (∀ c ∈ a, p c = false) ∧ (∀ c ∈ b, p c = false)
  | [], a, s, b, h => by simp [splitUnique] at h
  | c :: cs, a, s, b, h => by
    by_cases hc : p c
    · by_cases hany : cs.any p
      · simp [splitUnique, hc, hany] at h
      · simp only [splitUnique, hc, if_true, hany, Bool.false_eq_true, if_false,
          Option.some.injEq, Prod.mk.injEq] at h
        obtain ⟨rfl, rfl, rfl⟩ := h
        refine ⟨rfl, hc, by simp, ?_⟩
        intro x hx
        by_contra hpx
        rw [Bool.not_eq_false] at hpx
        have : cs.any p = true := List.any_eq_true.mpr ⟨x, hx, hpx⟩
        exact hany this
    · cases hrec : splitUnique p cs with
      | none => simp [splitUnique, hc, hrec] at h
      | some v =>
        obtain ⟨a2, s2, b2⟩ := v
        simp only [splitUnique, hc, Bool.false_eq_true, if_false, hrec,
          Option.some.injEq, Prod.mk.injEq] at h
        obtain ⟨ha, rfl, rfl⟩ := h
        obtain ⟨hl, hps, hpa, hpb⟩ := splitUnique_sound hrec
        subst ha
        refine ⟨by simp [hl], hps, ?_, hpb⟩
        intro x hx
        rcases List.mem_cons.mp hx with hx | hx
        · subst hx; simpa using hc
        · exact hpa x hx

theorem splitUnique_complete {p : Char → Bool} {s : Char}
    (hs : p s = true) :
    ∀ {a b : List Char}, (∀ c ∈ a, p c = false) → (∀ c ∈ b, p c = false) →
      splitUnique p (a ++ s :: b) = some (a, s, b)
  | [], b, _, hb => by
    have hany : (b.any p) = false := by
      simp only [List.any_eq_false]
      intro x hx; simp [hb x hx]
    simp [splitUnique, hs, hany]
  | c :: a, b, ha, hb => by
    have hc : p c = false := ha c (List.mem_cons_self c a)
    have hrec := splitUnique_complete hs (fun x hx => ha x (List.mem_cons_of_mem c hx)) hb
    simp [splitUnique, hc, hrec]

/-! Decimal digits. -/

/-- Character of a decimal digit value below ten. -/
def digitChar (d : Nat) : Char :=
  match d with
  | 0 => '0' | 1 => '1' | 2 => '2' | 3 => '3' | 4 => '4'
  | 5 => '5' | 6 => '6' | 7 => '7' | 8 => '8' | _ => '9'

/-- Numeric value of a decimal digit list, most significant first; this is
how Number.parseInt with radix 10 evaluates a digit run. -/
def digitsToNat (l : List Char) : Nat :=
  l.foldl (fun n c => n * 10 + (c.toNat - 48)) 0

/-- Decimal digit characters of a natural number, most significant first.
The fuel argument makes the recursion structural; n + 1 is always
enough. -/
def natDigitsAux : Nat → Nat → List Char
  | 0, _ => []
  | fuel + 1, n =>
    if n < 10 then [digitChar n]
    else natDigitsAux fuel (n / 10) ++ [digitChar (n % 10)]

/-- Decimal representation of a natural number, as JavaScript
number-to-string conversion produces it for non-negative integral
values. -/
def natDigits (n : Nat) : List Char :=
  natDigitsAux (n + 1) n

theorem digitChar_isDigit {d : Nat} (h : d < 10) : (digitChar d).isDigit = true := by
  interval_cases d <;> decide

theorem digitChar_toNat {d : Nat} (h : d < 10) : (digitChar d).toNat - 48 = d := by
  interval_cases d <;> decide

theorem digitsToNat_from (n : Nat) :
    ∀ l : List Char, l.foldl (fun n c => n * 10 + (c.toNat - 48)) n =
      n * 10 ^ l.length + digitsToNat l := by
  intro l
  induction l generalizing n with
  | nil => simp [digitsToNat]
  | cons c cs ih =>
    simp only [List.foldl_cons, digitsToNat]
    rw [ih, ih (0 * 10 + (c.toNat - 48))]
    simp only [List.length_cons, pow_succ]
    ring

theorem digitsToNat_append (a b : List Char) :
    digitsToNat (a ++ b) = digitsToNat a * 10 ^ b.length + digitsToNat b := by
  unfold digitsToNat
  rw [List.foldl_append, digitsToNat_from]
  rfl

theorem natDigitsAux_spec :
    ∀ fuel n, n < fuel →
      natDigitsAux fuel n ≠ [] ∧
      (∀ c ∈ natDigitsAux fuel n, c.isDigit = true) ∧
      digitsToNat (natDigitsAux fuel n) = n := by
  intro fuel
  induction fuel with
  | zero => intro n h; omega
  | succ fuel ih =>
    intro n h
    by_cases hn : n < 10
    · refine ⟨by simp [natDigitsAux, hn], ?_, ?_⟩
      · intro c hc
        simp only [natDigitsAux, hn, if_true, List.mem_singleton] at hc
        subst hc; exact digitChar_isDigit hn
      · simp [natDigitsAux, hn, digitsToNat, digitChar_toNat hn]
    · have hdiv : n / 10 < fuel := by
        have : n / 10 < n := Nat.div_lt_self (by omega) (by omega)
        omega
      obtain ⟨hne, hdig, hval⟩ := ih (n / 10) hdiv
      refine ⟨by simp [natDigitsAux, hn], ?_, ?_⟩
      · intro c hc
        simp only [natDigitsAux, hn, if_false, List.mem_append, List.mem_singleton] at hc
        rcases hc with hc | hc
        · exact hdig c hc
        · subst hc; exact digitChar_isDigit (Nat.mod_lt n (by omega))
      · simp only [natDigitsAux, hn, if_false]
        rw [digitsToNat_append, hval]
        simp [digitsToNat, digitChar_toNat (Nat.mod_lt n (by omega : (0:Nat) < 10))]
        omega

theorem natDigits_ne_nil (n : Nat) : natDigits n ≠ [] :=
  (natDigitsAux_spec (n + 1) n (by omega)).1

theorem natDigits_isDigit (n : Nat) : ∀ c ∈ natDigits n, c.isDigit = true :=
  (natDigitsAux_spec (n + 1) n (by omega)).2.1

theorem digitsToNat_natDigits (n : Nat) : digitsToNat (natDigits n) = n :=
  (natDigitsAux_spec (n + 1) n (by omega)).2.2

/-! Model of Number.parseInt with radix 10. -/

/-- Longest leading run of decimal digits. -/
def takeDigits (l : List Char) : List Char :=
  l.takeWhile Char.isDigit

/-- Model of Number.parseInt with radix 10: leading whitespace is
skipped, an optional sign is accepted, then the longest leading run of
decimal digits is read and any trailing characters are ignored; the
result is NaN (none) exactly when that run is empty. -/
def jsParseInt (s : String) : Option Int :=
  match s.data.dropWhile jsWhitespace with
  | '-' :: rest =>
    let ds := takeDigits rest
    if ds.isEmpty then none else some (-(digitsToNat ds : Int))
  | '+' :: rest =>
    let ds := takeDigits rest
    if ds.isEmpty then none else some ((digitsToNat ds : Int))
  | l =>
    let ds := takeDigits l
    if ds.isEmpty then none else some ((digitsToNat ds : Int))

/-! The LibraryName class of LibraryName.js. -/

deriving instance DecidableEq for Except

/-- Identity of a library: the three fields of the LibraryName class.
Version fields are integers because the source accepts any JavaScript
number that is not NaN (negative values included). -/
structure LibraryName where
  machineName : String
  majorVersion : Int
  minorVersion : Int
deriving DecidableEq, Repr

/-- Failures thrown by the functions of LibraryName.js: a plain Error
(a programming error) or an H5pError carrying a message code (the
recoverable validation error thrown with status 400). -/
inductive NameError where
  | programming (message : String)
  | h5p (code : String)
deriving DecidableEq, Repr

/-- A JavaScript value that is either a number or a string, the two
input kinds the LibraryName constructor accepts for version
parameters. -/
inductive NumOrString where
  | num (value : Int)
  | str (value : String)
deriving DecidableEq, Repr

/-- Test of the machine-name pattern, the anchored regular expression
of one or more characters of the class [A-Za-z0-9_.]. -/
def machineNameOk (s : String) : Bool :=
  !s.data.isEmpty && s.data.all wordDot

/-- LibraryName.validateMachineName: throws a plain Error when the
machine name does not match the pattern. -/
def validateMachineName (machineName : String) : Except NameError Unit :=
  if machineNameOk machineName then .ok ()
  else .error (.programming ("Machine name \"" ++ machineName ++ "\" is illegal."))

/-- Version coercion performed by the LibraryName constructor: string
inputs go through Number.parseInt with radix 10, numbers are kept; the
none case is NaN. -/
def coerceVersion : NumOrString → Option Int
  | .num value => some value
  | .str value => jsParseInt value

/-- The LibraryName constructor: coerces string version inputs with
parseInt and then validates (machine-name pattern first, then each
version must be a number other than NaN), throwing on failure. -/
def LibraryName.construct (machineName : String) (majorVersion minorVersion : NumOrString) :
    Except NameError LibraryName :=
  match validateMachineName machineName with
  | .error e => .error e
  | .ok _ =>
    match coerceVersion majorVersion with
    | none => .error (.programming "Major version of library is invalid. Only numbers are allowed")
    | some major =>
      match coerceVersion minorVersion with
      | none => .error (.programming "Minor version of library is invalid. Only numbers are allowed")
      | some minor => .ok ⟨machineName, major, minor⟩

/-- LibraryName.equal: structural comparison of the three fields. -/
def LibraryName.equal (library1 library2 : LibraryName) : Bool :=
  library1.machineName == library2.machineName &&
  library1.majorVersion == library2.majorVersion &&
  library1.minorVersion == library2.minorVersion

/-- Separator options of fromUberName and toUberName. -/
structure UberNameOptions where
  useHyphen : Bool
  useWhitespace : Bool
deriving DecidableEq, Repr

/-- Default separator options of fromUberName and toUberName. -/
def defaultUberOptions : UberNameOptions :=
  ⟨true, false⟩

/-- Anchored match of the version pattern, digits dot digits: exactly one
dot with a non-empty digit run on each side, returning the two values
that Number.parseInt reads from the captured groups. -/
def matchVersionPart (l : List Char) : Option (Nat × Nat) :=
  match splitUnique (fun c => c == '.') l with
  | some (a, _, b) =>
    if !a.isEmpty && a.all Char.isDigit && !b.isEmpty && b.all Char.isDigit then
      some (digitsToNat a, digitsToNat b)
    else none
  | none => none

/-- LibraryName.fromUberName: throws a plain Error when no separator mode
is enabled, matches the ubername against the pattern selected by the
options (machine-name characters, one separator, then major dot minor),
throws the invalid-ubername-pattern H5pError when the match fails, and
otherwise builds the result through the constructor. -/
def fromUberName (options : UberNameOptions) (ubername : String) : Except NameError LibraryName :=
  if !options.useHyphen && !options.useWhitespace then
    .error (.programming
      "You must call fromUberName with either the useHyphen or useWhitespace option, or both!")
  else
    match splitUnique (sepClass options.useHyphen options.useWhitespace) ubername.data with
    | some (a, _, b) =>
      if !a.isEmpty && a.all wordDot then
        match matchVersionPart b with
        | some (major, minor) =>
          LibraryName.construct (String.mk a) (.num (major : Int)) (.num (minor : Int))
        | none => .error (.h5p "invalid-ubername-pattern")
      else .error (.h5p "invalid-ubername-pattern")
    | none => .error (.h5p "invalid-ubername-pattern")

/-- Decimal character list of an integer, modelling JavaScript
number-to-string conversion for integral values. -/
def intDigits (i : Int) : List Char :=
  if i < 0 then '-' :: natDigits i.natAbs else natDigits i.natAbs

/-- String form of an integer version number as JavaScript template
interpolation renders it. -/
def intString (i : Int) : String :=
  String.mk (intDigits i)

/-- Anchored test of the hyphen ubername pattern, the defensive re-parse
check inside toUberName. -/
def hyphenPatternTest (l : List Char) : Bool :=
  match splitUnique (fun c => c == '-') l with
  | some (a, _, b) => !a.isEmpty && a.all wordDot && (matchVersionPart b).isSome
  | none => false

/-- Anchored test of the whitespace ubername pattern, the defensive
re-parse check inside toUberName. -/
def whitespacePatternTest (l : List Char) : Bool :=
  match splitUnique jsWhitespace l with
  | some (a, _, b) => !a.isEmpty && a.all wordDot && (matchVersionPart b).isSome
  | none => false

/-- LibraryName.toUberName: renders machine name, separator and major dot
minor, trying the hyphen mode first, and throws a plain Error when the
rendered string would not re-parse or when neither separator mode is
enabled. -/
def toUberName (libraryName : LibraryName) (options : UberNameOptions) :
    Except NameError String :=
  if options.useHyphen then
    let ubername := libraryName.machineName ++ "-" ++ intString libraryName.majorVersion
      ++ "." ++ intString libraryName.minorVersion
    if hyphenPatternTest ubername.data then .ok ubername
    else .error (.programming
      ("Ubername " ++ ubername ++ " is not a valid ubername with hyphen separator."))
  else if options.useWhitespace then
    let ubername := libraryName.machineName ++ " " ++ intString libraryName.majorVersion
      ++ "." ++ intString libraryName.minorVersion
    if whitespacePatternTest ubername.data then .ok ubername
    else .error (.programming
      ("Ubername " ++ ubername ++ " is not a valid ubername with whitespace separator."))
  else .error (.programming "You must specify either the useHyphen or useWhitespace option")

/-! The ValidatorBuilder of helpers/ValidatorBuilder.js. -/

/-- A validation rule of ValidatorBuilder: a function of the data, the
path-prefix context and the shared aggregate error object.  It can throw
(the error case, normally raising the aggregate itself), or return the
updated aggregate state together with its result, where none is the
undefined sentinel meaning that no further processing is needed. -/
def Rule (α β ε : Type) : Type :=
  α → β → ε → Except ε (Option α × ε)

/-- The ValidatorBuilder: holds the ordered list of rules. -/
structure ValidatorBuilder (α β ε : Type) where
  rules : List (Rule α β ε)

/-- ValidatorBuilder.addRule: appends a rule at the end of the chain. -/
def ValidatorBuilder.addRule (vb : ValidatorBuilder α β ε) (rule : Rule α β ε) :
    ValidatorBuilder α β ε :=
  ⟨vb.rules ++ [rule]⟩

/-- ValidatorBuilder.addRuleWhen: appends the rule only when the
condition holds. -/
def ValidatorBuilder.addRuleWhen (vb : ValidatorBuilder α β ε) (rule : Rule α β ε)
    (condition : Bool) : ValidatorBuilder α β ε :=
  if condition then vb.addRule rule else vb

/-- Loop of ValidatorBuilder.validate: each rule is awaited in turn, its
return value becomes the next rule input, and an undefined return value
stops the loop immediately; the final return value (possibly the
undefined sentinel) is returned with the final aggregate state. -/
def runRules {α β ε : Type} : List (Rule α β ε) → α → β → ε → Except ε (Option α × ε)
  | [], data, _, e => .ok (some data, e)
  | rule :: rest, data, ctx, e =>
    match rule data ctx e with
    | .error thrown => .error thrown
    | .ok (none, e1) => .ok (none, e1)
    | .ok (some value, e1) => runRules rest value ctx e1

/-- ValidatorBuilder.validate: runs the rule chain on the data. -/
def ValidatorBuilder.validate (vb : ValidatorBuilder α β ε) (data : α) (ctx : β) (e : ε) :
    Except ε (Option α × ε) :=
  runRules vb.rules data ctx e

/-- The throwErrorsNowRule terminal rule: throws the aggregate error when
it has any entries (hasErrors is the method of the aggregate object). -/
def throwErrorsNowRule {α β ε : Type} (hasErrors : ε → Bool) : Rule α β ε :=
  fun data _ e => if hasErrors e then .error e else .ok (some data, e)

/-! Dependency resolution: listAssets and resolveDependencies of
H5PEditor.js. -/

/-- Fields of an installed library record that the asset resolution of
the editor reads: identity, dependency declarations and the paths of the
preloaded style and script files. -/
structure InstalledLibrary where
  name : LibraryName
  preloadedDependencies : List LibraryName
  editorDependencies : List LibraryName
  preloadedCss : List String
  preloadedJs : List String
deriving DecidableEq, Repr

/-- Assets accumulated by listAssets: script URLs, style URLs and the
translation objects keyed by machine name (the translation payload is
abstracted as a string). -/
structure Assets where
  scripts : List String
  styles : List String
  translations : List (String × String)
deriving DecidableEq, Repr

/-- Assignment to a JavaScript object property: an existing key keeps its
position and gets the new value, a new key is appended. -/
def setKey (m : List (String × String)) (k v : String) : List (String × String) :=
  if m.any (fun p => p.1 == k) then
    m.map (fun p => if p.1 == k then (k, v) else p)
  else m ++ [(k, v)]

/-- External collaborators of the asset resolution: the installed
libraries (the library manager and its storage), the parsed language
file of a library (none when getLanguage yields nothing JSON-parseable),
the addons selected for a machine name (getAddonsForLibrary, which
always returns a list), and the URL generator for library files. -/
structure EditorEnv where
  libraries : List InstalledLibrary
  language : LibraryName → Option String
  addons : String → List LibraryName
  libraryFile : LibraryName → String → String

/-- LibraryManager.getLibrary as observed by listAssets: the installed
record whose three identity fields match, if any. -/
def getLibrary (env : EditorEnv) (libraryName : LibraryName) : Option InstalledLibrary :=
  env.libraries.find? (fun l => LibraryName.equal l.name libraryName)

/-- Failures of the asset resolution: an H5pError with a message code, a
propagated library-name error, or exhaustion of the recursion fuel of
the embedding (the source has no such bound; the termination theorem
shows adequate fuel is never exhausted). -/
inductive EditorError where
  | h5p (code : String)
  | nameError (e : NameError)
  | outOfFuel
deriving DecidableEq, Repr

mutual

/-- H5PEditor.listAssets: computes the ubername key of the library,
returns null when the key is already in the loaded map, otherwise marks
it as loaded before anything else, reads the installed record (throwing
library-missing when there is none), resolves the preloaded, editor and
addon dependencies (the Promise.all of the source is sequentialized in
program order; the customization hook for altering library files is not
configured), and assembles the assets: dependency assets first, then the
own preloaded script and style files through the URL generator, then the
own translation.  The fuel argument is the structural recursion bound of
the embedding. -/
def listAssets (env : EditorEnv) : Nat → LibraryName → List String →
    Except EditorError (Option Assets × List String)
  | 0, _, _ => .error .outOfFuel
  | fuel + 1, libraryName, loaded =>
    match toUberName libraryName defaultUberOptions with
    | .error e => .error (.nameError e)
    | .ok key =>
      if key ∈ loaded then .ok (none, loaded)
      else
        match getLibrary env libraryName with
        | none => .error (.h5p "library-missing")
        | some library =>
          match resolveDependencies env fuel library.preloadedDependencies (key :: loaded) with
          | .error e => .error e
          | .ok (preloadedAssets, loaded2) =>
            match resolveDependencies env fuel library.editorDependencies loaded2 with
            | .error e => .error e
            | .ok (editorAssets, loaded3) =>
              match resolveDependencies env fuel
                  (env.addons library.name.machineName) loaded3 with
              | .error e => .error e
              | .ok (addonAssets, loaded4) =>
                let combined := preloadedAssets ++ editorAssets ++ addonAssets
                let scripts := combined.foldl (fun acc a => acc ++ a.scripts) []
                let styles := combined.foldl (fun acc a => acc ++ a.styles) []
                let translations := combined.foldl
                  (fun acc a => a.translations.foldl (fun m p => setKey m p.1 p.2) acc) []
                let scripts2 := scripts ++
                  library.preloadedJs.map (env.libraryFile library.name)
                let styles2 := styles ++
                  library.preloadedCss.map (env.libraryFile library.name)
                let translations2 :=
                  match env.language libraryName with
                  | some t => setKey translations libraryName.machineName t
                  | none => translations
                .ok (some ⟨scripts2, styles2, translations2⟩, loaded4)

/-- H5PEditor.resolveDependencies: walks the dependency list from left to
right, calling listAssets on each entry with the shared loaded map and
collecting the non-null asset results in order. -/
def resolveDependencies (env : EditorEnv) : Nat → List LibraryName → List String →
    Except EditorError (List Assets × List String)
  | 0, _, _ => .error .outOfFuel
  | _ + 1, [], loaded => .ok ([], loaded)
  | fuel + 1, dependency :: rest, loaded =>
    match listAssets env fuel dependency loaded with
    | .error e => .error e
    | .ok (assets, loaded1) =>
      match resolveDependencies env fuel rest loaded1 with
      | .error e => .error e
      | .ok (restAssets, loaded2) =>
        .ok ((match assets with
              | some a => a :: restAssets
              | none => restAssets), loaded2)

end

/-! Termination potential and bookkeeping for the dependency walk. -/

/-- Number of assets a listAssets result contributes to the collected
list of its caller: one for a processed library, zero for null. -/
def emitCount : Option Assets → Nat
  | some _ => 1
  | none => 0

/-- Key of an installed record in the loaded map, when its name
renders. -/
def recordKey (r : InstalledLibrary) : Option String :=
  (toUberName r.name defaultUberOptions).toOption

/-- Weight of an installed record in the termination potential: its own
processing cost plus one unit per declared or addon dependency. -/
def depWeight (env : EditorEnv) (r : InstalledLibrary) : Nat :=
  2 + r.preloadedDependencies.length + r.editorDependencies.length +
    (env.addons r.name.machineName).length

/-- Condition that an installed record is not yet in the loaded map. -/
def loadedCond (loaded : List String) (r : InstalledLibrary) : Bool :=
  match recordKey r with
  | some k => decide (k ∉ loaded)
  | none => false

/-- Termination potential of the dependency walk: the total weight of
the installed records not yet in the loaded map. -/
def phi (env : EditorEnv) (loaded : List String) : Nat :=
  ((env.libraries.filter (loadedCond loaded)).map (depWeight env)).sum

theorem sum_filter_le {α : Type} (w : α → Nat) (p q : α → Bool)
    (h : ∀ x, q x = true → p x = true) :
    ∀ xs : List α, ((xs.filter q).map w).sum ≤ ((xs.filter p).map w).sum := by
  intro xs
  induction xs with
  | nil => simp
  | cons x xs ih =>
    by_cases hq : q x
    · have hp := h x hq
      simpa [List.filter_cons, hq, hp] using ih
    · by_cases hp : p x
      · simp only [List.filter_cons, hq, hp, if_pos, if_neg, Bool.false_eq_true,
          if_false, if_true, List.map_cons, List.sum_cons]
        omega
      · simpa [List.filter_cons, hq, hp] using ih

theorem sum_filter_drop {α : Type} (w : α → Nat) (p q : α → Bool)
    (h : ∀ x, q x = true → p x = true) :
    ∀ (xs : List α) (r : α), r ∈ xs → p r = true → q r = false →
      ((xs.filter q).map w).sum + w r ≤ ((xs.filter p).map w).sum := by
  intro xs
  induction xs with
  | nil => intro r hr; cases hr
  | cons x xs ih =>
    intro r hr hp hq
    rcases List.mem_cons.mp hr with rfl | hr
    · simp only [List.filter_cons, hq, Bool.false_eq_true, if_false, hp, if_true,
        List.map_cons, List.sum_cons]
      have := sum_filter_le w p q h xs
      omega
    · by_cases hqx : q x
      · have hpx := h x hqx
        simp only [List.filter_cons, hqx, hpx, if_true, List.map_cons, List.sum_cons]
        have := ih r hr hp hq
        omega
      · by_cases hpx : p x
        · simp only [List.filter_cons, hqx, Bool.false_eq_true, if_false, hpx, if_true,
            List.map_cons, List.sum_cons]
          have := ih r hr hp hq
          omega
        · simp only [List.filter_cons, hqx, hpx, Bool.false_eq_true, if_false]
          exact ih r hr hp hq

theorem phi_mono (env : EditorEnv) {l1 l2 : List String}
    (h : ∀ x, x ∈ l1 → x ∈ l2) : phi env l2 ≤ phi env l1 := by
  apply sum_filter_le
  intro r hq
  unfold loadedCond at hq ⊢
  revert hq
  cases recordKey r with
  | none => intro hq; exact absurd hq (by simp)
  | some k =>
    intro hq
    simp only [decide_eq_true_eq] at hq ⊢
    exact fun hmem => hq (h k hmem)

theorem phi_insert (env : EditorEnv) {loaded : List String} {key : String}
    {r : InstalledLibrary} (hr : r ∈ env.libraries)
    (hk : recordKey r = some key) (hnotin : key ∉ loaded) :
    phi env (key :: loaded) + depWeight env r ≤ phi env loaded := by
  apply sum_filter_drop
  · intro x hq
    unfold loadedCond at hq ⊢
    revert hq
    cases recordKey x with
    | none => intro hq; exact absurd hq (by simp)
    | some k =>
      intro hq
      simp only [decide_eq_true_eq] at hq ⊢
      exact fun hmem => hq (List.mem_cons_of_mem key hmem)
  · exact hr
  · unfold loadedCond
    rw [hk]
    simpa using hnotin
  · unfold loadedCond
    rw [hk]
    simp [List.mem_cons]

/-- Connection between getLibrary and the identity of the record it
returns: matching succeeds exactly on equal identities. -/
theorem LibraryName.equal_iff {a b : LibraryName} :
    LibraryName.equal a b = true ↔ a = b := by
  cases a; cases b
  simp [LibraryName.equal, LibraryName.mk.injEq, and_assoc]

theorem getLibrary_eq_some {env : EditorEnv} {lib : LibraryName}
    {r : InstalledLibrary} (h : getLibrary env lib = some r) :
    r ∈ env.libraries ∧ r.name = lib := by
  unfold getLibrary at h
  have hm := List.mem_of_find?_eq_some h
  have hp := List.find?_some h
  exact ⟨hm, LibraryName.equal_iff.mp hp⟩

/-- Invariants of the dependency walk: the loaded map only grows (new
keys are pushed in front), it stays duplicate-free, and each collected
asset entry corresponds to a distinct newly marked library. -/
theorem walk_props (env : EditorEnv) :
    ∀ fuel : Nat,
      (∀ lib loaded res, listAssets env fuel lib loaded = .ok res →
        (∃ new, res.2 = new ++ loaded) ∧ (loaded.Nodup → res.2.Nodup) ∧
        emitCount res.1 + loaded.length ≤ res.2.length) ∧
      (∀ deps loaded res, resolveDependencies env fuel deps loaded = .ok res →
        (∃ new, res.2 = new ++ loaded) ∧ (loaded.Nodup → res.2.Nodup) ∧
        res.1.length + loaded.length ≤ res.2.length) := by
  intro fuel
  induction fuel with
  | zero =>
    constructor
    · intro lib loaded res h; simp [listAssets] at h
    · intro deps loaded res h; simp [resolveDependencies] at h
  | succ fuel ih =>
    obtain ⟨ihL, ihR⟩ := ih
    constructor
    · intro lib loaded res h
      simp only [listAssets] at h
      cases htu : toUberName lib defaultUberOptions with
      | error e => rw [htu] at h; simp at h
      | ok key =>
        simp only [htu] at h
        by_cases hmem : key ∈ loaded
        · rw [if_pos hmem] at h
          simp only [Except.ok.injEq] at h
          subst h
          exact ⟨⟨[], rfl⟩, fun hnd => hnd, by simp [emitCount]⟩
        · rw [if_neg hmem] at h
          cases hgl : getLibrary env lib with
          | none => rw [hgl] at h; simp at h
          | some library =>
            simp only [hgl] at h
            cases hr1 : resolveDependencies env fuel
                library.preloadedDependencies (key :: loaded) with
            | error e => rw [hr1] at h; simp at h
            | ok v1 =>
              obtain ⟨as1, loaded2⟩ := v1
              simp only [hr1] at h
              cases hr2 : resolveDependencies env fuel
                  library.editorDependencies loaded2 with
              | error e => rw [hr2] at h; simp at h
              | ok v2 =>
                obtain ⟨as2, loaded3⟩ := v2
                simp only [hr2] at h
                cases hr3 : resolveDependencies env fuel
                    (env.addons library.name.machineName) loaded3 with
                | error e => rw [hr3] at h; simp at h
                | ok v3 =>
                  obtain ⟨as3, loaded4⟩ := v3
                  simp only [hr3] at h
                  simp only [Except.ok.injEq] at h
                  subst h
                  obtain ⟨⟨n1, e1⟩, nd1, len1⟩ := ihR _ _ _ hr1
                  obtain ⟨⟨n2, e2⟩, nd2, len2⟩ := ihR _ _ _ hr2
                  obtain ⟨⟨n3, e3⟩, nd3, len3⟩ := ihR _ _ _ hr3
                  simp only at e1 e2 e3 nd1 nd2 nd3 len1 len2 len3
                  subst e3; subst e2; subst e1
                  refine ⟨⟨n3 ++ (n2 ++ (n1 ++ [key])), by simp⟩, ?_, ?_⟩
                  · intro hnd
                    exact nd3 (nd2 (nd1 (List.nodup_cons.mpr ⟨hmem, hnd⟩)))
                  · simp only [emitCount, List.length_append, List.length_cons]
                    omega
    · intro deps loaded res h
      cases deps with
      | nil =>
        simp only [resolveDependencies, Except.ok.injEq] at h
        subst h
        exact ⟨⟨[], rfl⟩, fun hnd => hnd, by simp⟩
      | cons d rest =>
        simp only [resolveDependencies] at h
        cases hla : listAssets env fuel d loaded with
        | error e => rw [hla] at h; simp at h
        | ok v1 =>
          obtain ⟨assets, loaded1⟩ := v1
          simp only [hla] at h
          cases hrr : resolveDependencies env fuel rest loaded1 with
          | error e => rw [hrr] at h; simp at h
          | ok v2 =>
            obtain ⟨restAssets, loaded2⟩ := v2
            simp only [hrr] at h
            simp only [Except.ok.injEq] at h
            subst h
            obtain ⟨⟨n1, e1⟩, nd1, len1⟩ := ihL _ _ _ hla
            obtain ⟨⟨n2, e2⟩, nd2, len2⟩ := ihR _ _ _ hrr
            simp only at e1 e2 nd1 nd2 len1 len2
            subst e2; subst e1
            refine ⟨⟨n2 ++ n1, by simp⟩, fun hnd => nd2 (nd1 hnd), ?_⟩
            cases assets with
            | none =>
              simp only [emitCount, List.length_append] at len1 len2 ⊢
              omega
            | some a =>
              simp only [emitCount, List.length_append, List.length_cons] at len1 len2 ⊢
              omega

theorem phi_append (env : EditorEnv) {l n : List String} :
    phi env (n ++ l) ≤ phi env l :=
  phi_mono env (fun _ hx => List.mem_append.mpr (Or.inr hx))

/-- Adequacy of the fuel bound: with fuel exceeding the termination
potential of the not-yet-loaded installed libraries, the dependency walk
never exhausts its recursion bound — on any dependency graph, cyclic
ones included. -/
theorem walk_fuel (env : EditorEnv) :
    ∀ fuel : Nat,
      (∀ lib loaded, phi env loaded + 1 ≤ fuel →
        listAssets env fuel lib loaded ≠ .error .outOfFuel) ∧
      (∀ deps loaded, phi env loaded + deps.length + 1 ≤ fuel →
        resolveDependencies env fuel deps loaded ≠ .error .outOfFuel) := by
  intro fuel
  induction fuel with
  | zero =>
    constructor
    · intro lib loaded hb; omega
    · intro deps loaded hb; omega
  | succ fuel ih =>
    obtain ⟨ihL, ihR⟩ := ih
    constructor
    · intro lib loaded hb
      simp only [listAssets]
      cases htu : toUberName lib defaultUberOptions with
      | error e => simp
      | ok key =>
        dsimp only
        by_cases hmem : key ∈ loaded
        · rw [if_pos hmem]; simp
        · rw [if_neg hmem]
          cases hgl : getLibrary env lib with
          | none => simp
          | some library =>
            dsimp only
            have hrl := getLibrary_eq_some hgl
            have hk : recordKey library = some key := by
              unfold recordKey
              rw [hrl.2, htu]
              rfl
            have hphi := phi_insert env hrl.1 hk hmem
            unfold depWeight at hphi
            have b1 : phi env (key :: loaded) +
                library.preloadedDependencies.length + 1 ≤ fuel := by omega
            cases hr1 : resolveDependencies env fuel
                library.preloadedDependencies (key :: loaded) with
            | error e =>
              dsimp only
              have hne := ihR _ _ b1
              rw [hr1] at hne
              intro hcontra
              have he : e = EditorError.outOfFuel := by simpa using hcontra
              exact hne (by rw [he])
            | ok v1 =>
              obtain ⟨as1, loaded2⟩ := v1
              dsimp only
              obtain ⟨⟨n1, e1⟩, -, -⟩ := (walk_props env fuel).2 _ _ _ hr1
              simp only at e1
              have hm1 : phi env loaded2 ≤ phi env (key :: loaded) := by
                rw [e1]; exact phi_append env
              have b2 : phi env loaded2 +
                  library.editorDependencies.length + 1 ≤ fuel := by omega
              cases hr2 : resolveDependencies env fuel
                  library.editorDependencies loaded2 with
              | error e =>
                dsimp only
                have hne := ihR _ _ b2
                rw [hr2] at hne
                intro hcontra
                have he : e = EditorError.outOfFuel := by simpa using hcontra
                exact hne (by rw [he])
              | ok v2 =>
                obtain ⟨as2, loaded3⟩ := v2
                dsimp only
                obtain ⟨⟨n2, e2⟩, -, -⟩ := (walk_props env fuel).2 _ _ _ hr2
                simp only at e2
                have hm2 : phi env loaded3 ≤ phi env loaded2 := by
                  rw [e2]; exact phi_append env
                have b3 : phi env loaded3 +
                    (env.addons library.name.machineName).length + 1 ≤ fuel := by omega
                cases hr3 : resolveDependencies env fuel
                    (env.addons library.name.machineName) loaded3 with
                | error e =>
                  dsimp only
                  have hne := ihR _ _ b3
                  rw [hr3] at hne
                  intro hcontra
                  have he : e = EditorError.outOfFuel := by simpa using hcontra
                  exact hne (by rw [he])
                | ok v3 =>
                  obtain ⟨as3, loaded4⟩ := v3
                  simp
    · intro deps loaded hb
      cases deps with
      | nil => simp [resolveDependencies]
      | cons d rest =>
        simp only [resolveDependencies, List.length_cons] at hb ⊢
        have b1 : phi env loaded + 1 ≤ fuel := by omega
        cases hla : listAssets env fuel d loaded with
        | error e =>
          dsimp only
          have hne := ihL d loaded b1
          rw [hla] at hne
          intro hcontra
          have he : e = EditorError.outOfFuel := by simpa using hcontra
          exact hne (by rw [he])
        | ok v1 =>
          obtain ⟨assets, loaded1⟩ := v1
          dsimp only
          obtain ⟨⟨n1, e1⟩, -, -⟩ := (walk_props env fuel).1 _ _ _ hla
          simp only at e1
          have hm1 : phi env loaded1 ≤ phi env loaded := by
            rw [e1]; exact phi_append env
          have b2 : phi env loaded1 + rest.length + 1 ≤ fuel := by omega
          cases hrr : resolveDependencies env fuel rest loaded1 with
          | error e =>
            dsimp only
            have hne := ihR _ _ b2
            rw [hrr] at hne
            intro hcontra
            have he : e = EditorError.outOfFuel := by simpa using hcontra
            exact hne (by rw [he])
          | ok v2 =>
            obtain ⟨restAssets, loaded2⟩ := v2
            simp

/-! getLibraryOverview of H5PEditor.js. -/

/-- Data of a loaded library that getLibraryOverview reads from
LibraryManager.getLibrary: identity, title, runnable flag and the
optional metadata settings (none is null). -/
structure LoadedLibraryData where
  name : LibraryName
  title : String
  runnable : Bool
  metadataSettings : Option String
deriving DecidableEq, Repr

/-- Overview entry produced for the client by getLibraryOverview. -/
structure LibraryOverview where
  majorVersion : Int
  metadataSettings : Option String
  minorVersion : Int
  name : String
  restricted : Bool
  runnable : Bool
  title : String
  tutorialUrl : String
  uberName : String
deriving DecidableEq, Repr

/-- External collaborator of getLibraryOverview: getLibrary of the
library manager, which can throw (its errors are caught per entry) or
yield nothing when the library is not installed. -/
structure OverviewEnv where
  load : LibraryName → Except String (Option LoadedLibraryData)

/-- Overview entry built from a loaded library, with the whitespace
ubername of the template string of the source. -/
def mkOverview (l : LoadedLibraryData) : LibraryOverview where
  majorVersion := l.name.majorVersion
  metadataSettings := l.metadataSettings
  minorVersion := l.name.minorVersion
  name := l.name.machineName
  restricted := false
  runnable := l.runnable
  title := l.title
  tutorialUrl := ""
  uberName := l.name.machineName ++ " " ++ intString l.name.majorVersion
    ++ "." ++ intString l.name.minorVersion

/-- Body of the try block of getLibraryOverview for one parsed library:
a thrown load error is caught and a missing library yields nothing, both
becoming undefined; otherwise the overview entry is built. -/
def overviewFor (env : OverviewEnv) (lib : LibraryName) : Option LibraryOverview :=
  match env.load lib with
  | .error _ => none
  | .ok none => none
  | .ok (some loadedLibrary) => some (mkOverview loadedLibrary)

/-- Separator options that getLibraryOverview passes to fromUberName:
only useWhitespace is set, so useHyphen is falsy. -/
def overviewParseOptions : UberNameOptions :=
  ⟨false, true⟩

/-- Parse phase of getLibraryOverview: the ubernames are mapped over
fromUberName and the first thrown parse error propagates out of the
whole call.  The subsequent filter of undefined parse results in the
source is vacuous because fromUberName throws instead of returning
undefined. -/
def mapParseUbernames : List String → Except NameError (List LibraryName)
  | [] => .ok []
  | n :: rest =>
    match fromUberName overviewParseOptions n with
    | .error e => .error e
    | .ok lib =>
      match mapParseUbernames rest with
      | .error e => .error e
      | .ok libs => .ok (lib :: libs)

/-- H5PEditor.getLibraryOverview: parses all ubernames with the
whitespace separator, loads each library, silently drops entries whose
library is missing or whose load throws, and returns the remaining
overview entries in input order. -/
def getLibraryOverview (env : OverviewEnv) (ubernames : List String) :
    Except NameError (List LibraryOverview) :=
  match mapParseUbernames ubernames with
  | .error e => .error e
  | .ok libs => .ok (libs.filterMap (overviewFor env))

/-! Install, update and rollback of LibraryManager.

Modelled from the spec: the implementation of LibraryManager is not part
of the sources (only its declaration file with documentation comments
is), so the repository state, the decision phase of installFromDirectory
and the commit and rollback behaviour of installLibrary and
updateLibrary are modelled from sections 4.4, 6 and 7 of the
specification and from the documentation comments of the declaration
file. -/

/-- Modelled from the spec: the metadata record of a library
(library.json): identity, patch version and the required preloaded file
lists read by the consistency check. -/
structure LibraryMetadata where
  name : LibraryName
  patchVersion : Int
  preloadedJs : List String
  preloadedCss : List String
deriving DecidableEq, Repr

/-- Modelled from the spec: contents stored under one library directory
key: files (relative path to byte content) and the metadata record whose
presence marks a completed installation. -/
structure StoredLibrary where
  files : List (String × String)
  metadata : Option LibraryMetadata
deriving DecidableEq, Repr

/-- Modelled from the spec: the repository is a map from directory keys
to stored libraries. -/
abbrev Repo := List (String × StoredLibrary)

/-- Modelled from the spec: the staging directory of one candidate:
parsed metadata plus the files to copy. -/
structure Staging where
  metadata : LibraryMetadata
  files : List (String × String)
deriving DecidableEq, Repr

/-- Modelled from the spec: fault injection for the storage backend; a
write of a file or of the metadata record fails exactly when the oracle
says so (storage failures are propagated unchanged and trigger rollback
mid-commit; rollback deletion itself is assumed to succeed, its failure
being the separate operator-attention error class of section 7). -/
structure FaultModel where
  fileWriteFails : String → String → Bool
  metadataWriteFails : String → Bool

/-- Modelled from the spec: errors of the install operations. -/
inductive InstallError where
  | storage (path : String)
  | consistency (path : String)
deriving DecidableEq, Repr

/-- Modelled from the spec: outcome reported by installFromDirectory
(the result types none, new and patch of ILibraryInstallResult). -/
inductive InstallResult where
  | noChange
  | installedNew
  | patched
deriving DecidableEq, Repr

/-- Modelled from the spec: canonical directory key of a library. -/
def directoryKey (name : LibraryName) : String :=
  name.machineName ++ "-" ++ intString name.majorVersion ++ "." ++ intString name.minorVersion

/-- Existence of a directory key in the repository. -/
def repoHasKey (repo : Repo) (key : String) : Bool :=
  repo.any (fun p => p.1 == key)

/-- Modelled from the spec: write of one file under a library key
(storage write of section 6), overwriting the path or creating the
entry. -/
def repoSetFile (repo : Repo) (key path content : String) : Repo :=
  if repoHasKey repo key then
    repo.map (fun p =>
      if p.1 == key then (p.1, { p.2 with files := setKey p.2.files path content }) else p)
  else repo ++ [(key, ⟨[(path, content)], none⟩)]

/-- Modelled from the spec: write of the metadata record under a library
key (writeMetadata of section 6). -/
def repoSetMetadata (repo : Repo) (key : String) (md : LibraryMetadata) : Repo :=
  if repoHasKey repo key then
    repo.map (fun p =>
      if p.1 == key then (p.1, { p.2 with metadata := some md }) else p)
  else repo ++ [(key, ⟨[], some md⟩)]

/-- Modelled from the spec: recursive delete of everything under a
library key (delete of section 6). -/
def repoDelete (repo : Repo) (key : String) : Repo :=
  repo.filter (fun p => !(p.1 == key))

/-- Modelled from the spec: removal of the files under a key that are
not among the paths of the new version (upgrade step 4: old files are
removed after the new files are in place). -/
def prunePaths (repo : Repo) (key : String) (keep : List String) : Repo :=
  repo.map (fun p =>
    if p.1 == key then (p.1, { p.2 with files := p.2.files.filter (fun f => keep.contains f.1) })
    else p)

/-- Modelled from the spec: the installed version sharing all three
identity fields with the candidate (decision query of section 4.4
step 3); only entries with a metadata record count as installed. -/
def findInstalled (repo : Repo) (name : LibraryName) : Option LibraryMetadata :=
  (repo.filterMap (fun p => p.2.metadata)).find? (fun md => LibraryName.equal md.name name)

/-- Modelled from the spec: sequential copy of the staging files into
the repository under the library key; the first failing write aborts and
reports the partially written state for rollback. -/
def copyFiles (faults : FaultModel) (key : String) :
    List (String × String) → Repo → Except (InstallError × Repo) Repo
  | [], repo => .ok repo
  | (path, content) :: rest, repo =>
    if faults.fileWriteFails key path then .error (.storage path, repo)
    else copyFiles faults key rest (repoSetFile repo key path content)

/-- Modelled from the spec: the files the metadata declares as
required. -/
def requiredFiles (md : LibraryMetadata) : List String :=
  md.preloadedJs ++ md.preloadedCss

/-- Modelled from the spec: the pre-commit consistency check of section
4.4 step 7: every required file must be present in staging; a missing
file aborts before any write. -/
def checkConsistency (staging : Staging) : Except InstallError Unit :=
  match (requiredFiles staging.metadata).find?
      (fun f => !(staging.files.any (fun p => p.1 == f))) with
  | some f => .error (.consistency f)
  | none => .ok ()

/-- Modelled from the spec: fresh installation (section 4.4 steps 4 and
5 and the documentation of installLibrary): consistency check, copy of
every staging file, then the metadata record last; on a storage failure
everything written under the key is deleted and the error re-raised. -/
def installLibrary (faults : FaultModel) (staging : Staging) (repo : Repo) :
    Repo × Except InstallError Unit :=
  let key := directoryKey staging.metadata.name
  match checkConsistency staging with
  | .error e => (repo, .error e)
  | .ok _ =>
    match copyFiles faults key staging.files repo with
    | .error (e, partialState) => (repoDelete partialState key, .error e)
    | .ok copied =>
      if faults.metadataWriteFails key then
        (repoDelete copied key, .error (.storage "library.json"))
      else (repoSetMetadata copied key staging.metadata, .ok ())

/-- Modelled from the spec: upgrade in place (section 4.4 steps 4 and 5
and the documentation of updateLibrary, which removes the library if
there is an error): consistency check, copy of the new files, metadata
record, then removal of old files absent from the new version; on a
storage failure the library is deleted entirely rather than the old
version restored. -/
def updateLibrary (faults : FaultModel) (staging : Staging) (repo : Repo) :
    Repo × Except InstallError Unit :=
  let key := directoryKey staging.metadata.name
  match checkConsistency staging with
  | .error e => (repo, .error e)
  | .ok _ =>
    match copyFiles faults key staging.files repo with
    | .error (e, partialState) => (repoDelete partialState key, .error e)
    | .ok copied =>
      if faults.metadataWriteFails key then
        (repoDelete copied key, .error (.storage "library.json"))
      else
        (prunePaths (repoSetMetadata copied key staging.metadata) key
          (staging.files.map Prod.fst), .ok ())

/-- Modelled from the spec: the decision phase of installFromDirectory
(section 4.4 step 3): no installed version with the same name and
major.minor means a fresh install, an installed patch version greater
than or equal to the candidate is the Skipped no-op, and a lower
installed patch version is an upgrade. -/
def installFromDirectory (faults : FaultModel) (staging : Staging) (repo : Repo) :
    Repo × Except InstallError InstallResult :=
  match findInstalled repo staging.metadata.name with
  | none =>
    match installLibrary faults staging repo with
    | (repo1, .error e) => (repo1, .error e)
    | (repo1, .ok _) => (repo1, .ok .installedNew)
  | some installed =>
    if staging.metadata.patchVersion ≤ installed.patchVersion then
      (repo, .ok .noChange)
    else
      match updateLibrary faults staging repo with
      | (repo1, .error e) => (repo1, .error e)
      | (repo1, .ok _) => (repo1, .ok .patched)

/-- Deleting a key after an update that only touches entries of that key
gives the same result as deleting the key from the original state. -/
theorem repoDelete_update (repo : Repo) (key : String)
    (g : String × StoredLibrary → StoredLibrary) :
    repoDelete (repo.map (fun p => if p.1 == key then (p.1, g p) else p)) key =
      repoDelete repo key := by
  unfold repoDelete
  induction repo with
  | nil => rfl
  | cons p rest ih =>
    by_cases hp : p.1 == key
    · simp only [List.map_cons, List.filter_cons, hp, if_true]
      simpa [hp] using ih
    · simp only [List.map_cons, List.filter_cons, hp, Bool.false_eq_true, if_false]
      simpa [hp] using ih

theorem repoDelete_setFile (repo : Repo) (key path content : String) :
    repoDelete (repoSetFile repo key path content) key = repoDelete repo key := by
  unfold repoSetFile
  by_cases hk : repoHasKey repo key
  · rw [if_pos hk]
    exact repoDelete_update repo key _
  · rw [if_neg hk]
    unfold repoDelete
    rw [List.filter_append]
    simp

theorem repoDelete_setMetadata (repo : Repo) (key : String) (md : LibraryMetadata) :
    repoDelete (repoSetMetadata repo key md) key = repoDelete repo key := by
  unfold repoSetMetadata
  by_cases hk : repoHasKey repo key
  · rw [if_pos hk]
    exact repoDelete_update repo key _
  · rw [if_neg hk]
    unfold repoDelete
    rw [List.filter_append]
    simp

/-- The copy loop only touches the entry of its key: deleting the key
from its result (partial on failure or complete on success) equals
deleting the key from the starting state. -/
theorem copyFiles_delete (faults : FaultModel) (key : String) :
    ∀ (files : List (String × String)) (repo : Repo),
      (∀ e partialState, copyFiles faults key files repo = .error (e, partialState) →
        repoDelete partialState key = repoDelete repo key) ∧
      (∀ copied, copyFiles faults key files repo = .ok copied →
        repoDelete copied key = repoDelete repo key) := by
  intro files
  induction files with
  | nil =>
    intro repo
    constructor
    · intro e partialState h; simp [copyFiles] at h
    · intro copied h
      simp only [copyFiles, Except.ok.injEq] at h
      rw [h]
  | cons f rest ih =>
    intro repo
    obtain ⟨path, content⟩ := f
    constructor
    · intro e partialState h
      simp only [copyFiles] at h
      by_cases hf : faults.fileWriteFails key path
      · rw [if_pos hf] at h
        simp only [Except.error.injEq, Prod.mk.injEq] at h
        rw [h.2]
      · rw [if_neg hf] at h
        have := (ih (repoSetFile repo key path content)).1 e partialState h
        rw [this, repoDelete_setFile]
    · intro copied h
      simp only [copyFiles] at h
      by_cases hf : faults.fileWriteFails key path
      · rw [if_pos hf] at h; simp at h
      · rw [if_neg hf] at h
        have := (ih (repoSetFile repo key path content)).2 copied h
        rw [this, repoDelete_setFile]

/-- Deleting a key that has no entry leaves the repository unchanged. -/
theorem repoDelete_absent (repo : Repo) (key : String)
    (h : ∀ p ∈ repo, p.1 ≠ key) : repoDelete repo key = repo := by
  unfold repoDelete
  apply List.filter_eq_self.mpr
  intro p hp
  simpa using h p hp

/-! Character-level facts connecting the machine-name class to the
separator classes. -/

theorem string_data_append (s t : String) : (s ++ t).data = s.data ++ t.data :=
  rfl

theorem data_mk (l : List Char) : (String.mk l).data = l :=
  rfl

theorem mk_data (s : String) : String.mk s.data = s := by
  cases s
  rfl

theorem wordDot_ne_hyphen {c : Char} (h : wordDot c = true) : (c == '-') = false := by
  by_contra hcon
  rw [Bool.not_eq_false, beq_iff_eq] at hcon
  subst hcon
  exact absurd h (by decide)

theorem wordDot_not_ws {c : Char} (h : wordDot c = true) : jsWhitespace c = false := by
  by_contra hcon
  rw [Bool.not_eq_false] at hcon
  unfold jsWhitespace at hcon
  simp only [Bool.or_eq_true, beq_iff_eq] at hcon
  rcases hcon with (((((((h1 | h1) | h1) | h1) | h1) | h1) | h1) | h1) <;>
    (subst h1; exact absurd h (by decide))

theorem wordDot_not_sep {c : Char} (h : wordDot c = true) (uh uw : Bool) :
    sepClass uh uw c = false := by
  unfold sepClass
  rw [wordDot_ne_hyphen h, wordDot_not_ws h]
  simp

theorem isDigit_wordDot {c : Char} (h : c.isDigit = true) : wordDot c = true := by
  simp [wordDot, Char.isAlphanum, h]

theorem isDigit_ne_dot {c : Char} (h : c.isDigit = true) : (c == '.') = false := by
  by_contra hcon
  rw [Bool.not_eq_false, beq_iff_eq] at hcon
  subst hcon
  exact absurd h (by decide)

theorem matchVersionPart_render (a b : Nat) :
    matchVersionPart (natDigits a ++ '.' :: natDigits b) = some (a, b) := by
  unfold matchVersionPart
  rw [splitUnique_complete (by decide)
    (fun c hc => isDigit_ne_dot (natDigits_isDigit a c hc))
    (fun c hc => isDigit_ne_dot (natDigits_isDigit b c hc))]
  have hea : (natDigits a).isEmpty = false := by
    cases hna : natDigits a with
    | nil => exact absurd hna (natDigits_ne_nil a)
    | cons x xs => rfl
  have heb : (natDigits b).isEmpty = false := by
    cases hnb : natDigits b with
    | nil => exact absurd hnb (natDigits_ne_nil b)
    | cons x xs => rfl
  have hda : (natDigits a).all Char.isDigit = true :=
    List.all_eq_true.mpr (natDigits_isDigit a)
  have hdb : (natDigits b).all Char.isDigit = true :=
    List.all_eq_true.mpr (natDigits_isDigit b)
  simp [hea, heb, hda, hdb, digitsToNat_natDigits]

/-! Claim theorems. -/

/-- C4: for every valid LibraryIdentity (machine name matching the
pattern of one or more characters in [A-Za-z0-9_.], non-negative integer
major and minor versions), rendering it with toUberName and parsing the
resulting string back with fromUberName under the same separator policy
(hyphen, or whitespace) yields the original identity:
parse(render(identity)) == identity. -/
theorem fromUberName_toUberName_roundtrip (lib : LibraryName) (options : UberNameOptions)
    (hname : machineNameOk lib.machineName = true)
    (hmaj : 0 ≤ lib.majorVersion) (hmin : 0 ≤ lib.minorVersion)
    (hopts : options.useHyphen = true ∨ options.useWhitespace = true) :
    (toUberName lib options).bind (fromUberName options) = .ok lib := by
  have hname2 : lib.machineName.data.isEmpty = false ∧
      lib.machineName.data.all wordDot = true := by
    unfold machineNameOk at hname
    simp only [Bool.and_eq_true, Bool.not_eq_true'] at hname
    exact hname
  have hne := hname2.1
  have hall : ∀ c ∈ lib.machineName.data, wordDot c = true :=
    List.all_eq_true.mp hname2.2
  have hmd1 : intDigits lib.majorVersion = natDigits lib.majorVersion.natAbs := by
    unfold intDigits
    rw [if_neg (by omega)]
  have hmd2 : intDigits lib.minorVersion = natDigits lib.minorVersion.natAbs := by
    unfold intDigits
    rw [if_neg (by omega)]
  have hcast1 : (lib.majorVersion.natAbs : Int) = lib.majorVersion := Int.natAbs_of_nonneg hmaj
  have hcast2 : (lib.minorVersion.natAbs : Int) = lib.minorVersion := Int.natAbs_of_nonneg hmin
  obtain ⟨uh, uw⟩ := options
  cases uh with
  | true =>
    have hs : (lib.machineName ++ "-" ++ intString lib.majorVersion ++ "."
        ++ intString lib.minorVersion).data =
        lib.machineName.data ++ '-' :: (natDigits lib.majorVersion.natAbs
          ++ '.' :: natDigits lib.minorVersion.natAbs) := by
      simp only [string_data_append, intString, data_mk, hmd1, hmd2]
      simp
    have hsplitH := splitUnique_complete (p := fun c => c == '-') (s := '-') (by decide)
      (a := lib.machineName.data)
      (b := natDigits lib.majorVersion.natAbs ++ '.' :: natDigits lib.minorVersion.natAbs)
      (fun c hc => wordDot_ne_hyphen (hall c hc))
      (by
        intro c hc
        rcases List.mem_append.mp hc with hc | hc
        · exact wordDot_ne_hyphen (isDigit_wordDot (natDigits_isDigit _ c hc))
        · rcases List.mem_cons.mp hc with rfl | hc
          · decide
          · exact wordDot_ne_hyphen (isDigit_wordDot (natDigits_isDigit _ c hc)))
    have htest : hyphenPatternTest (lib.machineName ++ "-" ++ intString lib.majorVersion
        ++ "." ++ intString lib.minorVersion).data = true := by
      unfold hyphenPatternTest
      rw [hs, hsplitH]
      simp [hne, List.all_eq_true.mpr hall, matchVersionPart_render]
    have hto : toUberName lib ⟨true, uw⟩ = .ok (lib.machineName ++ "-"
        ++ intString lib.majorVersion ++ "." ++ intString lib.minorVersion) := by
      unfold toUberName
      simp only [htest, if_true]
    rw [hto]
    show fromUberName ⟨true, uw⟩ _ = .ok lib
    unfold fromUberName
    rw [hs]
    dsimp only
    rw [splitUnique_complete (by simp [sepClass])
      (fun c hc => wordDot_not_sep (hall c hc) true uw)
      (by
        intro c hc
        rcases List.mem_append.mp hc with hc | hc
        · exact wordDot_not_sep (isDigit_wordDot (natDigits_isDigit _ c hc)) true uw
        · rcases List.mem_cons.mp hc with rfl | hc
          · exact wordDot_not_sep (by decide) true uw
          · exact wordDot_not_sep (isDigit_wordDot (natDigits_isDigit _ c hc)) true uw)]
    simp only [hne, hname2.2, Bool.not_false, Bool.and_self, if_true]
    rw [matchVersionPart_render]
    dsimp only
    unfold LibraryName.construct validateMachineName
    rw [mk_data]
    simp only [hname, if_true]
    dsimp only [coerceVersion]
    rw [hcast1, hcast2]
    simp
  | false =>
    cases uw with
    | false => rcases hopts with h | h <;> simp at h
    | true =>
      have hs : (lib.machineName ++ " " ++ intString lib.majorVersion ++ "."
          ++ intString lib.minorVersion).data =
          lib.machineName.data ++ ' ' :: (natDigits lib.majorVersion.natAbs
            ++ '.' :: natDigits lib.minorVersion.natAbs) := by
        simp only [string_data_append, intString, data_mk, hmd1, hmd2]
        simp
      have hsplitW := splitUnique_complete (p := jsWhitespace) (s := ' ') (by decide)
        (a := lib.machineName.data)
        (b := natDigits lib.majorVersion.natAbs ++ '.' :: natDigits lib.minorVersion.natAbs)
        (fun c hc => wordDot_not_ws (hall c hc))
        (by
          intro c hc
          rcases List.mem_append.mp hc with hc | hc
          · exact wordDot_not_ws (isDigit_wordDot (natDigits_isDigit _ c hc))
          · rcases List.mem_cons.mp hc with rfl | hc
            · decide
            · exact wordDot_not_ws (isDigit_wordDot (natDigits_isDigit _ c hc)))
      have htest : whitespacePatternTest (lib.machineName ++ " " ++ intString lib.majorVersion
          ++ "." ++ intString lib.minorVersion).data = true := by
        unfold whitespacePatternTest
        rw [hs, hsplitW]
        simp [hne, List.all_eq_true.mpr hall, matchVersionPart_render]
      have hto : toUberName lib ⟨false, true⟩ = .ok (lib.machineName ++ " "
          ++ intString lib.majorVersion ++ "." ++ intString lib.minorVersion) := by
        rw [hs] at htest
        unfold toUberName
        simp [htest, intString, data_mk, hmd1, hmd2]
      rw [hto]
      show fromUberName ⟨false, true⟩ _ = .ok lib
      unfold fromUberName
      rw [hs]
      dsimp only
      rw [splitUnique_complete (by decide)
        (fun c hc => wordDot_not_sep (hall c hc) false true)
        (by
          intro c hc
          rcases List.mem_append.mp hc with hc | hc
          · exact wordDot_not_sep (isDigit_wordDot (natDigits_isDigit _ c hc)) false true
          · rcases List.mem_cons.mp hc with rfl | hc
            · exact wordDot_not_sep (by decide) false true
            · exact wordDot_not_sep (isDigit_wordDot (natDigits_isDigit _ c hc)) false true)]
      simp only [hne, hname2.2, Bool.not_false, Bool.and_self, if_true]
      rw [matchVersionPart_render]
      dsimp only
      unfold LibraryName.construct validateMachineName
      rw [mk_data]
      simp only [hname, if_true]
      dsimp only [coerceVersion]
      rw [hcast1, hcast2]
      simp

theorem fromUberName_toUberName_roundtrip_witness :
    machineNameOk "H5P.Example" = true ∧ (0 : Int) ≤ 1 ∧ (0 : Int) ≤ 0 ∧
    (toUberName ⟨"H5P.Example", 1, 0⟩ defaultUberOptions).bind
      (fromUberName defaultUberOptions) = .ok ⟨"H5P.Example", 1, 0⟩ :=
  ⟨by decide, by decide, by decide,
    fromUberName_toUberName_roundtrip ⟨"H5P.Example", 1, 0⟩ defaultUberOptions
      (by decide) (by decide) (by decide) (Or.inl rfl)⟩

/-- C5, counterexample: the LibraryName constructor accepts the number
-5 as a major version and produces an identity with a negative major
version, so constructed identities are not always non-negative. -/
theorem libraryName_construct_negative_accepted :
    LibraryName.construct "H5P.Example" (.num (-5)) (.num 0) =
      .ok ⟨"H5P.Example", -5, 0⟩ ∧ ¬((0 : Int) ≤ -5) :=
  ⟨by decide, by decide⟩

/-- C5, amended: a successfully constructed LibraryName carries exactly
the given number or the parseInt value of the given string for each
version (negative values included), and construction fails exactly when
the machine name is invalid or a version input is a string without a
leading integer (NaN) — there is no non-negativity or integrality check
beyond NaN rejection. -/
theorem libraryName_construct_characterization (machineName : String)
    (major minor : NumOrString) (lib : LibraryName) :
    LibraryName.construct machineName major minor = .ok lib ↔
      (machineNameOk machineName = true ∧
       coerceVersion major = some lib.majorVersion ∧
       coerceVersion minor = some lib.minorVersion ∧
       lib.machineName = machineName) := by
  unfold LibraryName.construct validateMachineName
  by_cases hm : machineNameOk machineName = true
  · rw [if_pos hm]
    cases hmaj : coerceVersion major with
    | none => simp [hm]
    | some a =>
      cases hmin : coerceVersion minor with
      | none => simp [hm]
      | some b =>
        cases lib with
        | mk n mj mn =>
          simp only [hm, true_and, Option.some.injEq, Except.ok.injEq,
            LibraryName.mk.injEq]
          constructor
          · rintro ⟨h1, h2, h3⟩
            subst h1; subst h2; subst h3
            exact ⟨rfl, rfl, rfl⟩
          · rintro ⟨h1, h2, h3⟩
            subst h1; subst h2; subst h3
            exact ⟨rfl, rfl, rfl⟩
  · rw [if_neg hm]
    simp [hm]

/-- C9: calling fromUberName or toUberName with both separator modes
disabled fails immediately with the plain programming Error, for every
input (the result does not depend on the input at all), and never with
the recoverable h5p validation error. -/
theorem no_separator_mode_programming_error :
    (∀ ubername, fromUberName ⟨false, false⟩ ubername = .error (.programming
      "You must call fromUberName with either the useHyphen or useWhitespace option, or both!")) ∧
    (∀ libraryName, toUberName libraryName ⟨false, false⟩ = .error (.programming
      "You must specify either the useHyphen or useWhitespace option")) :=
  ⟨fun _ => rfl, fun _ => rfl⟩

theorem matchVersionPart_wordDot {b : List Char} {v : Nat × Nat}
    (h : matchVersionPart b = some v) : ∀ c ∈ b, wordDot c = true := by
  unfold matchVersionPart at h
  cases hsp : splitUnique (fun c => c == '.') b with
  | none => rw [hsp] at h; simp at h
  | some t =>
    obtain ⟨u, d, w⟩ := t
    simp only [hsp] at h
    by_cases hcond : (!u.isEmpty && u.all Char.isDigit && !w.isEmpty && w.all Char.isDigit) = true
    · obtain ⟨hb, hd, _, _⟩ := splitUnique_sound hsp
      simp only [Bool.and_eq_true] at hcond
      have hu : ∀ c ∈ u, c.isDigit = true := List.all_eq_true.mp hcond.1.1.2
      have hw : ∀ c ∈ w, c.isDigit = true := List.all_eq_true.mp hcond.2
      subst hb
      intro c hc
      rcases List.mem_append.mp hc with hc | hc
      · exact isDigit_wordDot (hu c hc)
      · rcases List.mem_cons.mp hc with hceq | hc
        · rw [hceq]
          have hdot : d = '.' := by simpa using hd
          rw [hdot]
          decide
        · exact isDigit_wordDot (hw c hc)
    · rw [if_neg hcond] at h
      simp at h

/-- Successful parsing bounds the characters outside the machine-name
class: a matched ubername has at most one character outside
[A-Za-z0-9_.] (the separator). -/
theorem fromUberName_ok_count {options : UberNameOptions} {s : String} {lib : LibraryName}
    (h : fromUberName options s = .ok lib) :
    s.data.countP (fun c => !wordDot c) ≤ 1 := by
  unfold fromUberName at h
  by_cases hmode : (!options.useHyphen && !options.useWhitespace) = true
  · rw [if_pos hmode] at h; simp at h
  · rw [if_neg hmode] at h
    cases hsp : splitUnique (sepClass options.useHyphen options.useWhitespace) s.data with
    | none => rw [hsp] at h; simp at h
    | some t =>
      obtain ⟨a, c, b⟩ := t
      simp only [hsp] at h
      by_cases hname : (!a.isEmpty && a.all wordDot) = true
      · rw [if_pos hname] at h
        cases hmv : matchVersionPart b with
        | none => rw [hmv] at h; simp at h
        | some v =>
          obtain ⟨hb, _, _, _⟩ := splitUnique_sound hsp
          simp only [Bool.and_eq_true] at hname
          have hwa : ∀ x ∈ a, wordDot x = true := List.all_eq_true.mp hname.2
          have hwb := matchVersionPart_wordDot hmv
          rw [hb, List.countP_append, List.countP_cons]
          have ha0 : a.countP (fun c => !wordDot c) = 0 :=
            List.countP_eq_zero.mpr (fun x hx => by simp [hwa x hx])
          have hb0 : b.countP (fun c => !wordDot c) = 0 :=
            List.countP_eq_zero.mpr (fun x hx => by simp [hwb x hx])
          rw [ha0, hb0]
          split <;> omega
      · rw [if_neg hname] at h
        simp at h

/-- C8: a machine name containing any character outside [A-Za-z0-9_.]
fails validateMachineName, and an ubername built from such a machine
name, a hyphen or space separator and any version text is rejected by
fromUberName under every separator option — it never returns an
identity. -/
theorem parse_rejects_bad_machine_name (name rest : String) (sep : Char)
    (options : UberNameOptions) (hsep : sep = '-' ∨ sep = ' ')
    (hbad : ∃ c ∈ name.data, wordDot c = false) :
    (∃ message, validateMachineName name = .error (.programming message)) ∧
    ∀ lib, fromUberName options (name ++ String.mk [sep] ++ rest) ≠ .ok lib := by
  have hnot : machineNameOk name = false := by
    by_contra hcon
    rw [Bool.not_eq_false] at hcon
    unfold machineNameOk at hcon
    simp only [Bool.and_eq_true, Bool.not_eq_true'] at hcon
    obtain ⟨c, hc, hwc⟩ := hbad
    have := List.all_eq_true.mp hcon.2 c hc
    rw [this] at hwc
    cases hwc
  constructor
  · exact ⟨"Machine name \"" ++ name ++ "\" is illegal.", by
      unfold validateMachineName
      rw [if_neg (by simp [hnot])]⟩
  · intro lib hok
    have hcount := fromUberName_ok_count hok
    have hdata : (name ++ String.mk [sep] ++ rest).data = name.data ++ sep :: rest.data := by
      simp [string_data_append, data_mk]
    rw [hdata, List.countP_append, List.countP_cons] at hcount
    obtain ⟨c, hc, hwc⟩ := hbad
    have h1 : 0 < name.data.countP (fun c => !wordDot c) :=
      List.countP_pos_iff.mpr ⟨c, hc, by simp [hwc]⟩
    have h2 : (!wordDot sep) = true := by
      rcases hsep with rfl | rfl <;> decide
    rw [if_pos h2] at hcount
    omega

theorem parse_rejects_bad_machine_name_witness :
    (('-' : Char) = '-' ∨ ('-' : Char) = ' ') ∧
    (∃ c ∈ ("H5P x" : String).data, wordDot c = false) ∧
    ((∃ message, validateMachineName "H5P x" = .error (.programming message)) ∧
      ∀ lib, fromUberName ⟨true, false⟩ ("H5P x" ++ String.mk ['-'] ++ "1.0") ≠ .ok lib) :=
  ⟨Or.inl rfl, by decide,
    parse_rejects_bad_machine_name "H5P x" "1.0" '-' ⟨true, false⟩ (Or.inl rfl) (by decide)⟩

/-- C6: when a rule of the chain returns the undefined sentinel during a
run, the pipeline stops immediately: the rules after it are never
consulted (the result is the same for every suffix) and the sentinel is
returned to the caller together with the aggregate state the stopping
rule produced. -/
theorem validate_sentinel_stops_pipeline {α β ε : Type}
    (pre rest : List (Rule α β ε)) (r : Rule α β ε)
    (data mid : α) (ctx : β) (e e1 e2 : ε)
    (hpre : runRules pre data ctx e = .ok (some mid, e1))
    (hr : r mid ctx e1 = .ok (none, e2)) :
    (ValidatorBuilder.mk (pre ++ r :: rest)).validate data ctx e = .ok (none, e2) := by
  unfold ValidatorBuilder.validate
  induction pre generalizing data e with
  | nil =>
    simp only [runRules, Except.ok.injEq, Prod.mk.injEq, Option.some.injEq] at hpre
    obtain ⟨hdm, he⟩ := hpre
    subst hdm
    subst he
    simp only [List.nil_append, runRules, hr]
  | cons rule pre ih =>
    simp only [runRules] at hpre
    simp only [List.cons_append, runRules]
    cases hstep : rule data ctx e with
    | error thrown =>
      rw [hstep] at hpre
      simp at hpre
    | ok v =>
      obtain ⟨o, e3⟩ := v
      simp only [hstep] at hpre ⊢
      cases o with
      | none => simp at hpre
      | some value => exact ih value e3 hpre

def sentinelRule : Rule Nat Unit Nat :=
  fun _ _ e => .ok (none, e + 1)

def afterRule : Rule Nat Unit Nat :=
  fun d _ e => .ok (some (d + 100), e)

theorem validate_sentinel_stops_pipeline_witness :
    (ValidatorBuilder.mk ([] ++ sentinelRule :: [afterRule])).validate 5 () 0 =
      .ok (none, 1) :=
  validate_sentinel_stops_pipeline [] [afterRule] sentinelRule 5 5 () 0 0 1 rfl rfl

/-- C7: a pipeline run is the sequential left-to-right composition of
its rules: splitting the rule list anywhere, the run equals running the
first part and, unless it threw or stopped at the sentinel, feeding its
result value and aggregate state into the run of the second part — so
rules execute strictly in insertion order (addRule appends at the end)
and each rule consumes the awaited result of the previous one. -/
theorem validate_sequential_composition {α β ε : Type}
    (l1 l2 : List (Rule α β ε)) (data : α) (ctx : β) (e : ε) :
    ((ValidatorBuilder.mk (l1 ++ l2)).validate data ctx e =
      match (ValidatorBuilder.mk l1).validate data ctx e with
      | .error thrown => .error thrown
      | .ok (none, e1) => .ok (none, e1)
      | .ok (some value, e1) => (ValidatorBuilder.mk l2).validate value ctx e1) ∧
    ∀ (vb : ValidatorBuilder α β ε) (rule : Rule α β ε),
      (vb.addRule rule).rules = vb.rules ++ [rule] := by
  constructor
  · unfold ValidatorBuilder.validate
    induction l1 generalizing data e with
    | nil => simp [runRules]
    | cons rule l1 ih =>
      simp only [List.cons_append, runRules]
      cases hstep : rule data ctx e with
      | error thrown => rfl
      | ok v =>
        obtain ⟨o, e3⟩ := v
        cases o with
        | none => rfl
        | some value => exact ih value e3
  · intro vb rule
    rfl

/-- C3: dependency resolution terminates on every dependency graph,
cycles included (with fuel beyond the termination potential the
embedding never runs out), and includes each library at most once in the
result: the loaded map keyed by the canonical ubername only grows,
stays duplicate-free, each collected asset entry corresponds to a
distinct newly marked library, and a library whose key is already in the
loaded map is not processed again — listAssets returns null for it and
leaves the map unchanged. -/
theorem resolveDependencies_cycle_safe (env : EditorEnv) (fuel : Nat)
    (roots : List LibraryName) (loaded : List String)
    (hfuel : phi env loaded + roots.length + 1 ≤ fuel)
    (hnd : loaded.Nodup) :
    resolveDependencies env fuel roots loaded ≠ .error .outOfFuel ∧
    (∀ result loaded2, resolveDependencies env fuel roots loaded = .ok (result, loaded2) →
      (∃ new, loaded2 = new ++ loaded) ∧ loaded2.Nodup ∧
      result.length + loaded.length ≤ loaded2.length) ∧
    (∀ lib key, toUberName lib defaultUberOptions = .ok key → key ∈ loaded →
      listAssets env fuel lib loaded = .ok (none, loaded)) := by
  refine ⟨(walk_fuel env fuel).2 roots loaded hfuel, ?_, ?_⟩
  · intro result loaded2 hres
    obtain ⟨hsub, hndup, hlen⟩ := (walk_props env fuel).2 _ _ _ hres
    exact ⟨hsub, hndup hnd, hlen⟩
  · intro lib key htu hkey
    cases fuel with
    | zero => omega
    | succ fuel =>
      simp only [listAssets, htu]
      rw [if_pos hkey]

def cyclicLibraryA : InstalledLibrary :=
  ⟨⟨"H5P.A", 1, 0⟩, [⟨"H5P.B", 1, 0⟩], [], ["a.css"], ["a.js"]⟩

def cyclicLibraryB : InstalledLibrary :=
  ⟨⟨"H5P.B", 1, 0⟩, [⟨"H5P.A", 1, 0⟩], [], [], ["b.js"]⟩

/-- Environment with a dependency cycle: A needs B and B needs A. -/
def cyclicEnv : EditorEnv :=
  ⟨[cyclicLibraryA, cyclicLibraryB], fun _ => none, fun _ => [], fun _ p => p⟩

theorem resolveDependencies_cycle_safe_witness :
    (phi cyclicEnv [] + [(⟨"H5P.A", 1, 0⟩ : LibraryName)].length + 1 ≤ 8) ∧
    (resolveDependencies cyclicEnv 8 [⟨"H5P.A", 1, 0⟩] [] ≠ .error .outOfFuel ∧
     (∀ result loaded2,
        resolveDependencies cyclicEnv 8 [⟨"H5P.A", 1, 0⟩] [] = .ok (result, loaded2) →
        (∃ new, loaded2 = new ++ []) ∧ loaded2.Nodup ∧
        result.length + ([] : List String).length ≤ loaded2.length) ∧
     (∀ lib key, toUberName lib defaultUberOptions = .ok key → key ∈ ([] : List String) →
        listAssets cyclicEnv 8 lib [] = .ok (none, []))) :=
  ⟨by decide,
    resolveDependencies_cycle_safe cyclicEnv 8 [⟨"H5P.A", 1, 0⟩] [] (by decide) (by decide)⟩

/-- Success test for a thrown-or-returned value. -/
def exceptIsOk {ε α : Type} : Except ε α → Bool
  | .ok _ => true
  | .error _ => false

/-- C10: on a list of syntactically valid ubernames, getLibraryOverview
never fails because of an individual library: every entry whose library
is missing or whose load throws is silently dropped, and the call
returns exactly the overview entries of the loadable libraries, in input
order. -/
theorem getLibraryOverview_skips_unloadable (env : OverviewEnv) (ubernames : List String)
    (h : ∀ n ∈ ubernames, exceptIsOk (fromUberName overviewParseOptions n) = true) :
    getLibraryOverview env ubernames =
      .ok (ubernames.filterMap (fun n =>
        match fromUberName overviewParseOptions n with
        | .ok lib => overviewFor env lib
        | .error _ => none)) := by
  unfold getLibraryOverview
  have hsteps : ∃ libs, mapParseUbernames ubernames = .ok libs ∧
      libs.filterMap (overviewFor env) =
        ubernames.filterMap (fun n =>
          match fromUberName overviewParseOptions n with
          | .ok lib => overviewFor env lib
          | .error _ => none) := by
    induction ubernames with
    | nil => exact ⟨[], rfl, rfl⟩
    | cons n rest ih =>
      have hn := h n (List.mem_cons_self n rest)
      cases hlib : fromUberName overviewParseOptions n with
      | error e => rw [hlib] at hn; simp [exceptIsOk] at hn
      | ok lib =>
        obtain ⟨libs, hm, hf⟩ := ih (fun x hx => h x (List.mem_cons_of_mem n hx))
        refine ⟨lib :: libs, ?_, ?_⟩
        · simp only [mapParseUbernames, hlib, hm]
        · cases ho : overviewFor env lib <;>
            simp [List.filterMap_cons, hlib, ho, hf]
  obtain ⟨libs, hm, hf⟩ := hsteps
  rw [hm]
  dsimp only
  rw [hf]

/-- Overview environment with one loadable library, one missing library
and one library whose load throws. -/
def overviewEnvEx : OverviewEnv :=
  ⟨fun lib =>
    if lib.machineName == "H5P.Good" then .ok (some ⟨lib, "Good", true, none⟩)
    else if lib.machineName == "H5P.Missing" then .ok none
    else .error "load failure"⟩

theorem getLibraryOverview_skips_unloadable_witness :
    (∀ n ∈ ["H5P.Good 1.2", "H5P.Missing 1.0", "H5P.Bad 2.0"],
      exceptIsOk (fromUberName overviewParseOptions n) = true) ∧
    getLibraryOverview overviewEnvEx ["H5P.Good 1.2", "H5P.Missing 1.0", "H5P.Bad 2.0"] =
      .ok (["H5P.Good 1.2", "H5P.Missing 1.0", "H5P.Bad 2.0"].filterMap (fun n =>
        match fromUberName overviewParseOptions n with
        | .ok lib => overviewFor overviewEnvEx lib
        | .error _ => none)) :=
  ⟨by decide,
    getLibraryOverview_skips_unloadable overviewEnvEx
      ["H5P.Good 1.2", "H5P.Missing 1.0", "H5P.Bad 2.0"] (by decide)⟩

theorem installLibrary_error_state (faults : FaultModel) (staging : Staging) (repo : Repo)
    (hcons : checkConsistency staging = .ok ()) :
    ∀ repo1 e, installLibrary faults staging repo = (repo1, .error e) →
      repo1 = repoDelete repo (directoryKey staging.metadata.name) := by
  intro repo1 e hrun
  unfold installLibrary at hrun
  rw [hcons] at hrun
  dsimp only at hrun
  cases hcopy : copyFiles faults (directoryKey staging.metadata.name) staging.files repo with
  | error pe =>
    obtain ⟨e0, partialState⟩ := pe
    simp only [hcopy, Prod.mk.injEq] at hrun
    rw [← hrun.1]
    exact (copyFiles_delete faults (directoryKey staging.metadata.name)
      staging.files repo).1 e0 partialState hcopy
  | ok copied =>
    simp only [hcopy] at hrun
    by_cases hmf : faults.metadataWriteFails (directoryKey staging.metadata.name) = true
    · rw [if_pos hmf] at hrun
      simp only [Prod.mk.injEq] at hrun
      rw [← hrun.1]
      exact (copyFiles_delete faults (directoryKey staging.metadata.name)
        staging.files repo).2 copied hcopy
    · rw [if_neg hmf] at hrun
      simp at hrun

theorem updateLibrary_error_state (faults : FaultModel) (staging : Staging) (repo : Repo)
    (hcons : checkConsistency staging = .ok ()) :
    ∀ repo1 e, updateLibrary faults staging repo = (repo1, .error e) →
      repo1 = repoDelete repo (directoryKey staging.metadata.name) := by
  intro repo1 e hrun
  unfold updateLibrary at hrun
  rw [hcons] at hrun
  dsimp only at hrun
  cases hcopy : copyFiles faults (directoryKey staging.metadata.name) staging.files repo with
  | error pe =>
    obtain ⟨e0, partialState⟩ := pe
    simp only [hcopy, Prod.mk.injEq] at hrun
    rw [← hrun.1]
    exact (copyFiles_delete faults (directoryKey staging.metadata.name)
      staging.files repo).1 e0 partialState hcopy
  | ok copied =>
    simp only [hcopy] at hrun
    by_cases hmf : faults.metadataWriteFails (directoryKey staging.metadata.name) = true
    · rw [if_pos hmf] at hrun
      simp only [Prod.mk.injEq] at hrun
      rw [← hrun.1]
      exact (copyFiles_delete faults (directoryKey staging.metadata.name)
        staging.files repo).2 copied hcopy
    · rw [if_neg hmf] at hrun
      simp at hrun

/-- C1: an install attempt that fails during the commit phase (the
consistency check passed, then a storage write failed) rolls back: a
fresh install leaves the repository in exactly its pre-attempt state
(nothing remains under the library directory key), and a failed upgrade
removes the library entirely — the repository equals the pre-attempt
state with the library deleted, the old version not being restored. -/
theorem installFromDirectory_failed_commit_rollback (faults : FaultModel)
    (staging : Staging) (repo : Repo)
    (hcons : checkConsistency staging = .ok ()) :
    (findInstalled repo staging.metadata.name = none →
      (∀ p ∈ repo, p.1 ≠ directoryKey staging.metadata.name) →
      ∀ repo1 e, installFromDirectory faults staging repo = (repo1, .error e) →
        repo1 = repo) ∧
    (∀ installed, findInstalled repo staging.metadata.name = some installed →
      installed.patchVersion < staging.metadata.patchVersion →
      ∀ repo1 e, installFromDirectory faults staging repo = (repo1, .error e) →
        repo1 = repoDelete repo (directoryKey staging.metadata.name)) := by
  constructor
  · intro hnone habsent repo1 e hrun
    unfold installFromDirectory at hrun
    rw [hnone] at hrun
    dsimp only at hrun
    cases hinst : installLibrary faults staging repo with
    | mk repo2 res =>
      rw [hinst] at hrun
      cases res with
      | error e0 =>
        simp only [Prod.mk.injEq] at hrun
        rw [← hrun.1]
        rw [installLibrary_error_state faults staging repo hcons repo2 e0 hinst]
        exact repoDelete_absent repo (directoryKey staging.metadata.name) habsent
      | ok u => simp at hrun
  · intro installed hfound hlower repo1 e hrun
    unfold installFromDirectory at hrun
    rw [hfound] at hrun
    dsimp only at hrun
    rw [if_neg (by omega)] at hrun
    cases hupd : updateLibrary faults staging repo with
    | mk repo2 res =>
      rw [hupd] at hrun
      cases res with
      | error e0 =>
        simp only [Prod.mk.injEq] at hrun
        rw [← hrun.1]
        exact updateLibrary_error_state faults staging repo hcons repo2 e0 hupd
      | ok u => simp at hrun

/-- Staging of a candidate H5P.A 1.0 patch 3 with two files, the first
of them declared required. -/
def stagingA : Staging :=
  ⟨⟨⟨"H5P.A", 1, 0⟩, 3, ["a.js"], []⟩, [("a.js", "xa"), ("b.js", "xb")]⟩

/-- Fault model in which the write of the second staged file fails. -/
def secondFileFault : FaultModel :=
  ⟨fun _ path => path == "b.js", fun _ => false⟩

/-- Repository already holding H5P.A 1.0 at patch 2. -/
def upgradeRepo : Repo :=
  [("H5P.A-1.0", ⟨[("a.js", "old"), ("gone.js", "g")],
    some ⟨⟨"H5P.A", 1, 0⟩, 2, [], []⟩⟩)]

theorem installFromDirectory_failed_commit_rollback_witness :
    checkConsistency stagingA = .ok () ∧
    installFromDirectory secondFileFault stagingA [] = ([], .error (.storage "b.js")) ∧
    installFromDirectory secondFileFault stagingA upgradeRepo =
      ([], .error (.storage "b.js")) ∧
    ([] : Repo) = ([] : Repo) ∧
    ([] : Repo) = repoDelete upgradeRepo (directoryKey stagingA.metadata.name) :=
  ⟨by decide, by decide, by decide,
    (installFromDirectory_failed_commit_rollback secondFileFault stagingA []
      (by decide)).1 (by decide) (by decide) [] (.storage "b.js") (by decide),
    (installFromDirectory_failed_commit_rollback secondFileFault stagingA upgradeRepo
      (by decide)).2 ⟨⟨"H5P.A", 1, 0⟩, 2, [], []⟩ (by decide) (by decide)
      [] (.storage "b.js") (by decide)⟩

/-- C2: when a candidate matches an installed library with a patch
version greater than or equal to its own, installFromDirectory takes the
Skipped branch: it succeeds reporting that nothing happened and the
repository — every file byte and the metadata record — is returned
exactly unchanged. -/
theorem installFromDirectory_skipped_noop (faults : FaultModel) (staging : Staging)
    (repo : Repo) (installed : LibraryMetadata)
    (hfound : findInstalled repo staging.metadata.name = some installed)
    (hpatch : staging.metadata.patchVersion ≤ installed.patchVersion) :
    installFromDirectory faults staging repo = (repo, .ok .noChange) := by
  unfold installFromDirectory
  rw [hfound]
  dsimp only
  rw [if_pos hpatch]

/-- Candidate with the same patch version as the installed library. -/
def stagingSkip : Staging :=
  ⟨⟨⟨"H5P.A", 1, 0⟩, 2, [], []⟩, [("a.js", "new")]⟩

theorem installFromDirectory_skipped_noop_witness :
    findInstalled upgradeRepo stagingSkip.metadata.name =
      some ⟨⟨"H5P.A", 1, 0⟩, 2, [], []⟩ ∧
    (2 : Int) ≤ 2 ∧
    installFromDirectory secondFileFault stagingSkip upgradeRepo =
      (upgradeRepo, .ok .noChange) :=
  ⟨by decide, by decide,
    installFromDirectory_skipped_noop secondFileFault stagingSkip upgradeRepo
      ⟨⟨"H5P.A", 1, 0⟩, 2, [], []⟩ (by decide) (by decide)⟩

end H5p
